import Mathlib

/-!
Verification of the choreography logic of `rdma_schema.py` (ManimCE scene
`RDMAOverEthernet`).

The scene is deterministic presentation choreography.  This file embeds, over
exact rational (and, where arc length is involved, real) arithmetic:

* the static layout: the two SuperNIC rectangles, the six switch squares, the
  ten link segments, and the four hand-authored polyline paths;
* the packet data: sequence numbers, colors from the six-color palette, the
  per-packet travel durations;
* the dispersal timeline: `LaggedStart` start times with `lag_ratio = 0.12`,
  the enclosing `AnimationGroup`, and the `self.play(..., run_time =
  max(runtimes) + 0.1)` rescaling, all rate functions being `linear`;
* the reassembly moves: the arrival row populated by the fixed permutation
  `arrival_order = [2, 5, 3, 6, 4, 1]` and the reorder into the sequenced row;
* the bandwidth meter: the `make_bar` width computation, the percent label,
  and the value tween from 60 to 95 with ManimCE's sigmoid-based `smooth`
  rate function (modelled over the reals).

Coordinates use ManimCE's default frame (height 8, width 128/9) and the
geometry rules of `to_edge`, `next_to`, `arrange`, `get_left`/`get_right`.
-/

namespace RDMA

/-- A 2D scene point; the z-coordinate is 0 throughout the script. -/
abbrev Pt := ℚ × ℚ

/-- Default ManimCE frame width: frame height 8 times the 16:9 aspect ratio. -/
def frameWidth : ℚ := 128 / 9

/-- NIC rectangle width (`nic_width = 2.4`). -/
def nicWidth : ℚ := 24 / 10

/-- Edge buffer used for both NICs (`to_edge(..., buff=1.2)`). -/
def nicBuff : ℚ := 12 / 10

/-- Center of `nic_src` after `to_edge(LEFT, buff=1.2)` (the y-coordinate stays 0). -/
def nicSrcCenter : Pt := (-(frameWidth / 2) + nicBuff + nicWidth / 2, 0)

/-- Center of `nic_dst` after `to_edge(RIGHT, buff=1.2)`. -/
def nicDstCenter : Pt := (frameWidth / 2 - nicBuff - nicWidth / 2, 0)

/-- `src_pt = nic_src.get_right()`, the anchor all paths start from. -/
def src_pt : Pt := (nicSrcCenter.1 + nicWidth / 2, 0)

/-- `dst_pt = nic_dst.get_left()`, the anchor all paths end at. -/
def dst_pt : Pt := (nicDstCenter.1 - nicWidth / 2, 0)

/-- Switch center `pos["s1"]`. -/
def posS1 : Pt := (-22 / 10, 14 / 10)

/-- Switch center `pos["s2"]`. -/
def posS2 : Pt := (-22 / 10, -14 / 10)

/-- Switch center `pos["s3"]`. -/
def posS3 : Pt := (0, 21 / 10)

/-- Switch center `pos["s4"]`. -/
def posS4 : Pt := (0, -21 / 10)

/-- Switch center `pos["s5"]`. -/
def posS5 : Pt := (22 / 10, 14 / 10)

/-- Switch center `pos["s6"]`. -/
def posS6 : Pt := (22 / 10, -14 / 10)

/-- The six switch centers in label order. -/
def switchCenters : List Pt := [posS1, posS2, posS3, posS4, posS5, posS6]

/-- Half the side length of a switch square (`Square(side_length=0.4)`). -/
def switchHalf : ℚ := 2 / 10

/-- `sw.get_left()` of the switch square centered at `p`. -/
def switchLeft (p : Pt) : Pt := (p.1 - switchHalf, p.2)

/-- `sw.get_right()` of the switch square centered at `p`. -/
def switchRight (p : Pt) : Pt := (p.1 + switchHalf, p.2)

/-- The ten drawn link segments (`edges`), as ordered endpoint pairs, exactly as
listed in the script: NIC anchors connect to switch-square borders. -/
def edges : List (Pt × Pt) :=
  [ (src_pt, switchLeft posS1),
    (src_pt, switchLeft posS2),
    (switchRight posS1, switchLeft posS3),
    (switchRight posS1, switchLeft posS5),
    (switchRight posS2, switchLeft posS4),
    (switchRight posS2, switchLeft posS6),
    (switchRight posS3, switchLeft posS5),
    (switchRight posS4, switchLeft posS6),
    (switchRight posS5, dst_pt),
    (switchRight posS6, dst_pt) ]

/-- `path_A = build_path([src_pt, s["s1"], s["s3"], s["s5"], dst_pt])`: the
polyline corner points (paths go through switch centers). -/
def path_A : List Pt := [src_pt, posS1, posS3, posS5, dst_pt]

/-- `path_B = build_path([src_pt, s["s1"], s["s5"], dst_pt])`. -/
def path_B : List Pt := [src_pt, posS1, posS5, dst_pt]

/-- `path_C = build_path([src_pt, s["s2"], s["s4"], s["s6"], dst_pt])`. -/
def path_C : List Pt := [src_pt, posS2, posS4, posS6, dst_pt]

/-- `path_D = build_path([src_pt, s["s2"], s["s6"], dst_pt])`. -/
def path_D : List Pt := [src_pt, posS2, posS6, dst_pt]

/-- The four distinct paths, in definition order. -/
def fourPaths : List (List Pt) := [path_A, path_B, path_C, path_D]

/-- `paths = [path_A, path_D, path_B, path_C, path_A, path_D]` — six packets
reuse the four paths. -/
def pathsList : List (List Pt) := [path_A, path_D, path_B, path_C, path_A, path_D]

/-- The path assigned to packet `i` (`paths[i]`). -/
def pathOf (i : ℕ) : List Pt := pathsList.getD i []

/-- The polyline of packet `i`'s trail flash: `paths[i].copy()` restroked, so
the same corner points. -/
def flashPathOf (i : ℕ) : List Pt := pathsList.getD i []

/-- `runtimes = [4.0, 2.6, 3.0, 3.5, 2.8, 4.2]`. -/
def runtimesList : List ℚ := [4, 26 / 10, 3, 35 / 10, 28 / 10, 42 / 10]

/-- `palette = [BLUE_C, GOLD_E, GREEN_C, PINK, PURPLE_B, TEAL_C]`, by ManimCE
hex value. -/
def palette : List String :=
  ["#58C4DD", "#C78D46", "#83C167", "#D147BD", "#9A72AC", "#5CD0B3"]

/-- `color = palette[i % len(palette)]`, the color of packet `i`'s dot and
sequence label. -/
def packetColor (i : ℕ) : String := palette.getD (i % palette.length) ""

/-- The trail flash of packet `i` is stroked with the same local `color`. -/
def flashColor (i : ℕ) : String := palette.getD (i % palette.length) ""

/-- Sequence number displayed on packet `i`: `Text(str(i + 1))`. -/
def seqNum (i : ℕ) : ℕ := i + 1

/-- Side length of a buffer slot square (`Square(0.28)`). -/
def slotSide : ℚ := 28 / 100

/-- Slot gap from `arrange(RIGHT, buff=0.12)`. -/
def slotBuff : ℚ := 12 / 100

/-- Left border x of both slot rows: `next_to(nic_dst, RIGHT, buff=0.6)`. -/
def slotsLeftX : ℚ := nicDstCenter.1 + nicWidth / 2 + 6 / 10

/-- Center of arrival-row slot `i` (`slots_arrive`, shifted `UP*0.5`). -/
def slotArriveCenter (i : ℕ) : Pt :=
  (slotsLeftX + slotSide / 2 + (i : ℚ) * (slotSide + slotBuff), 1 / 2)

/-- Center of sequenced-row slot `i` (`slots_order`, shifted `DOWN*0.5`). -/
def slotOrderCenter (i : ℕ) : Pt :=
  (slotsLeftX + slotSide / 2 + (i : ℚ) * (slotSide + slotBuff), -(1 / 2))

/-- `arrival_order = [2, 5, 3, 6, 4, 1]`, the literal list in the script. -/
def arrival_order : List ℕ := [2, 5, 3, 6, 4, 1]

/-- The arrival loop `for idx, seq_num in enumerate(arrival_order):
packets[seq_num - 1].move_to(slots_arrive[idx])`, as (packet index,
arrival-slot index) pairs. -/
def arriveMoves : List (ℕ × ℕ) := arrival_order.enum.map (fun pr => (pr.2 - 1, pr.1))

/-- The reorder loop `for i in range(6): packets[i].move_to(slots_order[i])`,
as (packet index, sequenced-slot index) pairs. -/
def reorderMoves : List (ℕ × ℕ) := (List.range 6).map (fun i => (i, i))

/-- Sequenced-row slot index the reorder block sends packet `m` to. -/
def slotAssignedToMarker (m : ℕ) : ℕ :=
  ((reorderMoves.filter (fun pr => pr.1 = m)).map Prod.snd).headD 0

/-- Packet index the reorder block puts into sequenced-row slot `sl`. -/
def markerAssignedToSlot (sl : ℕ) : ℕ :=
  ((reorderMoves.filter (fun pr => pr.2 = sl)).map Prod.fst).headD 0

/-- Packet index the arrival block puts into arrival-row slot `idx`. -/
def markerAtArriveSlot (idx : ℕ) : ℕ :=
  ((arriveMoves.filter (fun pr => pr.2 = idx)).map Prod.fst).headD 0

/-- Sequence numbers read off the sequenced row, slot 0 through 5, after the
reorder block. -/
def sequencedRowSeqs : List ℕ := (List.range 6).map (fun sl => seqNum (markerAssignedToSlot sl))

/-- Position-level semantics of the reorder block: `pkt.animate.move_to
(slots_order[i])` puts marker `i` at sequenced-slot `i`'s center whatever its
previous position `ps i` was. -/
def reorderPlace (_ps : Fin 6 → Pt) : Fin 6 → Pt := fun i => slotOrderCenter i.val

/-- Position-level semantics of the arrival block: packet `seq_num - 1` ends at
the arrival slot whose index enumerates it in `arrival_order`. -/
def arrivePlace (_ps : Fin 6 → Pt) : Fin 6 → Pt :=
  fun m => slotArriveCenter (arrival_order.indexOf (m.val + 1))

/-- `bar_bg.width` (`Rectangle(width=4.0, ...)`). -/
def barBgWidth : ℚ := 4

/-- Fill-bar width computed by `make_bar` from a sampled tracker value `v`:
`w = bar_bg.width * (v / 100.0); w = max(0.02, min(bar_bg.width, w))`. -/
def makeBarWidth (v : ℚ) : ℚ := max (2 / 100) (min barBgWidth (barBgWidth * (v / 100)))

/-- Round half to even, the rounding Python applies in `f"{v:.0f}"` (and in
`round(v)`). -/
def roundHalfEven (q : ℚ) : ℤ :=
  if q - ⌊q⌋ < 1 / 2 then ⌊q⌋
  else if 1 / 2 < q - ⌊q⌋ then ⌊q⌋ + 1
  else if Even ⌊q⌋ then ⌊q⌋ else ⌊q⌋ + 1

/-- Label produced by `percent_text`: `f"{percent.get_value():.0f}%"`. -/
def percentLabel (v : ℚ) : String := toString (roundHalfEven v) ++ "%"

/-- The specification's clamp of `x` to `[lo, hi]`. -/
def clampSpec (x lo hi : ℚ) : ℚ := min (max x lo) hi

/-- `lag_ratio=0.12`, passed to both `LaggedStart`s of the dispersal block. -/
def lagRatio : ℚ := 12 / 100

/-- Start times assigned by `AnimationGroup.build_animations_with_timings`:
each member starts `lag_ratio` times the previous member's run time after the
previous member's start. -/
def startsFrom (lag : ℚ) : ℚ → List ℚ → List ℚ
  | _, [] => []
  | t, rt :: rest => t :: startsFrom lag (t + lag * rt) rest

/-- Start times of the six `MoveAlongPath` animations on their `LaggedStart`
timeline. -/
def packetStarts : List ℚ := startsFrom lagRatio 0 runtimesList

/-- Start times of the six `ShowPassingFlash` trails on their `LaggedStart`
timeline (same run times, same lag ratio). -/
def flashStarts : List ℚ := startsFrom lagRatio 0 runtimesList

/-- Python's `max` over a nonempty list. -/
def pyMax (l : List ℚ) : ℚ :=
  match l with
  | [] => 0
  | x :: xs => xs.foldl max x

/-- `max_end_time` of the dispersal timeline: the largest member end time. -/
def dispersalMaxEnd : ℚ := pyMax (List.zipWith (· + ·) packetStarts runtimesList)

/-- The dispersal block's wall-clock duration: `run_time=max(runtimes) + 0.1`
passed to `self.play`. -/
def blockRunTime : ℚ := pyMax runtimesList + 1 / 10

/-- `np.clip(x, 0, 1)`. -/
def clip01 (x : ℚ) : ℚ := min (max x 0) 1

/-- Path proportion reached by packet `i`'s `MoveAlongPath`, `t` seconds into
the dispersal block: the scene drives the played `AnimationGroup` with alpha
`t / run_time`; `AnimationGroup.interpolate` maps it to internal time `alpha *
max_end_time` and lag-windows each member by its start time and run time.  All
rate functions involved (`AnimationGroup`, `LaggedStart`, `MoveAlongPath`) are
`linear`. -/
def markerAlpha (i : ℕ) (t : ℚ) : ℚ :=
  clip01 ((clip01 (t / blockRunTime) * dispersalMaxEnd - packetStarts.getD i 0) / runtimesList.getD i 1)

/-- Progress of packet `i`'s trail flash, `t` seconds into the dispersal block,
by the same `AnimationGroup` semantics. -/
def flashAlpha (i : ℕ) (t : ℚ) : ℚ :=
  clip01 ((clip01 (t / blockRunTime) * dispersalMaxEnd - flashStarts.getD i 0) / runtimesList.getD i 1)

/-- Point `p` lies on the closed segment from `a` to `b`: zero cross product
with the segment direction and projection within bounds. -/
def OnSeg (p a b : Pt) : Prop :=
  (b.1 - a.1) * (p.2 - a.2) - (b.2 - a.2) * (p.1 - a.1) = 0 ∧
  0 ≤ (b.1 - a.1) * (p.1 - a.1) + (b.2 - a.2) * (p.2 - a.2) ∧
  (b.1 - a.1) * (p.1 - a.1) + (b.2 - a.2) * (p.2 - a.2) ≤
    (b.1 - a.1) ^ 2 + (b.2 - a.2) ^ 2

/-- Real-plane image of a rational scene point. -/
noncomputable def ptR (p : Pt) : ℝ × ℝ := ((p.1 : ℝ), (p.2 : ℝ))

/-- Euclidean length of the segment from `a` to `b`. -/
noncomputable def segLen (a b : ℝ × ℝ) : ℝ :=
  Real.sqrt ((b.1 - a.1) ^ 2 + (b.2 - a.2) ^ 2)

/-- Linear traversal of a segment (a straight cubic piece built by
`set_points_as_corners` traverses its chord affinely in its parameter). -/
def lerpP (a b : ℝ × ℝ) (t : ℝ) : ℝ × ℝ := (a.1 + (b.1 - a.1) * t, a.2 + (b.2 - a.2) * t)

/-- Total length of the polyline starting at `p` with further corners `rest`. -/
noncomputable def polyLen : ℝ × ℝ → List (ℝ × ℝ) → ℝ
  | _, [] => 0
  | p, q :: rest => segLen p q + polyLen q rest

/-- The walk inside `VMobject.point_from_proportion`: spend the target arc
length `d` over the successive segments, stopping inside the first segment
where the cumulative length reaches `d` (a zero-length segment contributes its
start point). -/
noncomputable def walkAt : ℝ × ℝ → List (ℝ × ℝ) → ℝ → ℝ × ℝ
  | p, [], _ => p
  | p, q :: rest, d =>
    if d ≤ segLen p q then (if segLen p q = 0 then p else lerpP p q (d / segLen p q))
    else walkAt q rest (d - segLen p q)

/-- `VMobject.point_from_proportion(a)` for a corner polyline: walk the arc
length `a` times the total length. -/
noncomputable def pointFromProportion (ps : List Pt) (a : ℝ) : ℝ × ℝ :=
  match ps with
  | [] => (0, 0)
  | p :: rest => walkAt (ptR p) (rest.map ptR) (a * polyLen (ptR p) (rest.map ptR))

/-- Scene position of packet `i`'s dot, `t` seconds into the dispersal block:
`MoveAlongPath` moves the dot to the path point at the current proportion. -/
noncomputable def markerPos (i : ℕ) (t : ℚ) : ℝ × ℝ :=
  pointFromProportion (pathOf i) ((markerAlpha i t : ℚ) : ℝ)

/-- `sigmoid(x) = 1.0 / (1 + np.exp(-x))` from `manim.utils.rate_functions`. -/
noncomputable def sigmoid (x : ℝ) : ℝ := 1 / (1 + Real.exp (-x))

/-- ManimCE's `smooth` rate function with its default inflection 10:
`min(max((sigmoid(10 * (t - 0.5)) - error) / (1 - 2 * error), 0), 1)` where
`error = sigmoid(-5)`. -/
noncomputable def smooth (t : ℝ) : ℝ :=
  min (max ((sigmoid (10 * (t - 1 / 2)) - sigmoid (-(10 / 2))) /
    (1 - 2 * sigmoid (-(10 / 2)))) 0) 1

/-- `ValueTracker(60)` initial value. -/
def percentStart : ℚ := 60

/-- `percent.animate.set_value(95)` target value. -/
def percentEnd : ℚ := 95

/-- The meter scalar at progress `a ∈ [0, 1]` of the tween
`self.play(percent.animate.set_value(95), run_time=2.0, rate_func=smooth)`:
linear interpolation of the tracked value, composed with `smooth`. -/
noncomputable def percentValue (a : ℝ) : ℝ :=
  (percentStart : ℝ) + ((percentEnd : ℝ) - (percentStart : ℝ)) * smooth a

/-- C1: the reorder block places the packet with sequence number `k`
(1 ≤ k ≤ 6) into sequenced-row slot `k - 1`, the target being a function of the
packet index (sequence number) alone, so the sequenced row reads
`[1, 2, 3, 4, 5, 6]`. -/
theorem reassembly_places_by_sequence :
    (∀ k : ℕ, k ≤ 6 → 1 ≤ k →
      slotAssignedToMarker (k - 1) = k - 1 ∧ seqNum (k - 1) = k) ∧
    (∀ ps : Fin 6 → Pt, ∀ i : Fin 6, reorderPlace ps i = slotOrderCenter i.val) ∧
    sequencedRowSeqs = [1, 2, 3, 4, 5, 6] :=
  ⟨by decide, fun _ _ => rfl, by decide⟩

/-- Witness for the reassembly placement at sequence number 4. -/
theorem reassembly_places_by_sequence_witness :
    (4 : ℕ) ≤ 6 ∧ (1 : ℕ) ≤ 4 ∧ slotAssignedToMarker 3 = 3 ∧ seqNum 3 = 4 :=
  ⟨by decide, by decide, (reassembly_places_by_sequence.1 4 (by decide) (by decide)).1,
    (reassembly_places_by_sequence.1 4 (by decide) (by decide)).2⟩

/-- C2: the arrival row is populated by exactly the literal permutation
`[2, 5, 3, 6, 4, 1]`: the packet moved to arrival slot `idx` carries sequence
number `arrival_order[idx]`; the list is a permutation of 1..6 and is not
ascending (never accidentally sorted). -/
theorem arrival_order_fixed_permutation :
    arrival_order = [2, 5, 3, 6, 4, 1] ∧
    (∀ idx : ℕ, idx < 6 → seqNum (markerAtArriveSlot idx) = arrival_order.getD idx 0) ∧
    arrival_order.Perm [1, 2, 3, 4, 5, 6] ∧
    ¬ List.Sorted (· ≤ ·) arrival_order :=
  ⟨rfl, by decide, by decide, by decide⟩

/-- Witness for the arrival placement at arrival slot 1. -/
theorem arrival_order_fixed_permutation_witness :
    (1 : ℕ) < 6 ∧ seqNum (markerAtArriveSlot 1) = arrival_order.getD 1 0 :=
  ⟨by decide, arrival_order_fixed_permutation.2.1 1 (by decide)⟩

/-- C8: the sequenced-row placement is idempotent — applying it twice from any
marker positions yields the same slot assignment as applying it once, because
each marker's target slot center depends on its index only, not on its prior
position. -/
theorem reorder_idempotent :
    ∀ ps : Fin 6 → Pt, reorderPlace (reorderPlace ps) = reorderPlace ps :=
  fun _ => rfl

/-- C9: the palette holds exactly six pairwise distinct colors; packet `i`
(0 ≤ i < 6) is assigned `palette[i % 6] = palette[i]` and its trail flash the
same color, so no two packets (or flashes) share a color. -/
theorem palette_distinct_colors :
    palette.length = 6 ∧ palette.Nodup ∧
    (∀ i : ℕ, i < 6 → packetColor i = palette.getD i "" ∧ flashColor i = packetColor i) ∧
    (∀ i : ℕ, i < 6 → ∀ j : ℕ, j < 6 → i ≠ j → packetColor i ≠ packetColor j) :=
  ⟨rfl, by decide, by decide, by decide⟩

/-- Witness for palette distinctness at packets 0 and 1. -/
theorem palette_distinct_colors_witness :
    (0 : ℕ) < 6 ∧ (1 : ℕ) < 6 ∧ (0 : ℕ) ≠ 1 ∧ packetColor 0 ≠ packetColor 1 :=
  ⟨by decide, by decide, by decide,
    palette_distinct_colors.2.2.2 0 (by decide) 1 (by decide) (by decide)⟩

/-- Helper: with `lo ≤ hi`, the script's `max lo (min hi x)` is the clamp
`min (max x lo) hi`. -/
lemma max_min_eq_clamp (x lo hi : ℚ) (h : lo ≤ hi) :
    max lo (min hi x) = min (max x lo) hi := by
  rw [max_min_distrib_left, max_eq_right h, max_comm lo x, min_comm]

/-- C5: for every sampled tracker value `v` the `make_bar` width equals the
spec's `clamp(bar_max_width * v / 100, 0.02, bar_max_width)` and the
`percent_text` label is the (half-even) integer rounding of `v` followed by a
percent sign; both are pure functions of the live scalar, recomputed by
`always_redraw` rather than by the choreography code. -/
theorem meter_width_clamp_and_label :
    ∀ v : ℚ, makeBarWidth v = clampSpec (barBgWidth * (v / 100)) (2 / 100) barBgWidth ∧
      percentLabel v = toString (roundHalfEven v) ++ "%" := by
  intro v
  refine ⟨?_, rfl⟩
  unfold makeBarWidth clampSpec
  exact max_min_eq_clamp _ _ _ (by norm_num [barBgWidth])

/-- C10: for every meter value in the animated range `[60, 95]` neither clamp
bound is active — the raw width `4 * v / 100` strictly exceeds the minimal
visible width 0.02 and is at most 4 — so the displayed width is exactly
`bar_max_width * v / 100`. -/
theorem meter_clamp_inactive_in_range :
    ∀ v : ℚ, 60 ≤ v → v ≤ 95 →
      makeBarWidth v = barBgWidth * (v / 100) ∧
      2 / 100 < barBgWidth * (v / 100) ∧ barBgWidth * (v / 100) ≤ barBgWidth := by
  intro v h60 h95
  have hhi : barBgWidth * (v / 100) ≤ barBgWidth := by unfold barBgWidth; linarith
  have hlo : (2 : ℚ) / 100 < barBgWidth * (v / 100) := by unfold barBgWidth; linarith
  refine ⟨?_, hlo, hhi⟩
  unfold makeBarWidth
  rw [min_eq_right hhi, max_eq_right hlo.le]

/-- Witness for the inactive clamp at the sampled value 80. -/
theorem meter_clamp_inactive_in_range_witness :
    (60 : ℚ) ≤ 80 ∧ (80 : ℚ) ≤ 95 ∧ makeBarWidth 80 = barBgWidth * (80 / 100) :=
  ⟨by norm_num, by norm_num, (meter_clamp_inactive_in_range 80 (by norm_num) (by norm_num)).1⟩

/-- Traversing a segment to parameter 1 ends at its far endpoint. -/
lemma lerpP_one (a b : ℝ × ℝ) : lerpP a b 1 = b := by
  unfold lerpP
  rw [Prod.ext_iff]
  constructor <;> ring

/-- Segment lengths are nonnegative. -/
lemma segLen_nonneg (a b : ℝ × ℝ) : 0 ≤ segLen a b := Real.sqrt_nonneg _

/-- Polyline lengths are nonnegative. -/
lemma polyLen_nonneg : ∀ (rest : List (ℝ × ℝ)) (p : ℝ × ℝ), 0 ≤ polyLen p rest
  | [], _ => by simp [polyLen]
  | q :: rs, p => by
    have h1 := segLen_nonneg p q
    have h2 := polyLen_nonneg rs q
    simp only [polyLen]
    linarith

/-- Walking the full arc length of a polyline with positive-length segments
lands on its last corner. -/
lemma walkAt_total : ∀ (rest : List (ℝ × ℝ)) (p : ℝ × ℝ),
    List.Chain (fun a b => 0 < segLen a b) p rest →
    walkAt p rest (polyLen p rest) = rest.getLastD p := by
  intro rest
  induction rest with
  | nil => intro p _; simp [walkAt]
  | cons q rs ih =>
    intro p h
    rw [List.chain_cons] at h
    obtain ⟨h1, h2⟩ := h
    rw [List.getLastD_cons]
    cases rs with
    | nil =>
      have hne : segLen p q ≠ 0 := ne_of_gt h1
      rw [polyLen, polyLen, add_zero, walkAt, if_pos le_rfl, if_neg hne, div_self hne, lerpP_one]
      rfl
    | cons r rs2 =>
      have hqr : 0 < segLen q r := (List.chain_cons.mp h2).1
      have hpos : 0 < polyLen q (r :: rs2) := by
        have := polyLen_nonneg rs2 r
        rw [polyLen]
        linarith
      rw [polyLen, walkAt, if_neg (not_le.mpr (by linarith)), add_sub_cancel_left]
      exact ih q h2

/-- `point_from_proportion` at proportion 1 returns the last corner. -/
lemma pointFromProportion_one (p : Pt) (rest : List Pt)
    (h : List.Chain (fun a b => 0 < segLen a b) (ptR p) (rest.map ptR)) :
    pointFromProportion (p :: rest) 1 = (rest.map ptR).getLastD (ptR p) := by
  show walkAt (ptR p) (rest.map ptR) (1 * polyLen (ptR p) (rest.map ptR)) = _
  rw [one_mul]
  exact walkAt_total _ _ h

/-- Distinct rational points are a positive Euclidean distance apart. -/
lemma segLen_pos {a b : Pt} (h : a ≠ b) : 0 < segLen (ptR a) (ptR b) := by
  have h1 : a.1 ≠ b.1 ∨ a.2 ≠ b.2 := by
    by_contra hc
    push_neg at hc
    exact h (Prod.ext hc.1 hc.2)
  apply Real.sqrt_pos.mpr
  simp only [ptR]
  rcases h1 with h1 | h1
  · have hx : ((b.1 : ℝ) - (a.1 : ℝ)) ≠ 0 := sub_ne_zero.mpr (by exact_mod_cast h1.symm)
    nlinarith [sq_nonneg ((b.2 : ℝ) - (a.2 : ℝ)), pow_two_pos_of_ne_zero hx]
  · have hy : ((b.2 : ℝ) - (a.2 : ℝ)) ≠ 0 := sub_ne_zero.mpr (by exact_mod_cast h1.symm)
    nlinarith [sq_nonneg ((b.1 : ℝ) - (a.1 : ℝ)), pow_two_pos_of_ne_zero hy]

/-- Consecutive corners of `path_A` are distinct, so all its segments have
positive length. -/
lemma chain_path_A :
    List.Chain (fun a b => 0 < segLen a b) (ptR src_pt) ([posS1, posS3, posS5, dst_pt].map ptR) := by
  simp only [List.map_cons, List.map_nil]
  refine List.Chain.cons (segLen_pos ?_) (List.Chain.cons (segLen_pos ?_)
    (List.Chain.cons (segLen_pos ?_) (List.Chain.cons (segLen_pos ?_) List.Chain.nil))) <;>
    norm_num [src_pt, dst_pt, posS1, posS3, posS5, nicSrcCenter, nicDstCenter,
      frameWidth, nicWidth, nicBuff, Prod.ext_iff]

/-- Consecutive corners of `path_B` are distinct. -/
lemma chain_path_B :
    List.Chain (fun a b => 0 < segLen a b) (ptR src_pt) ([posS1, posS5, dst_pt].map ptR) := by
  simp only [List.map_cons, List.map_nil]
  refine List.Chain.cons (segLen_pos ?_) (List.Chain.cons (segLen_pos ?_)
    (List.Chain.cons (segLen_pos ?_) List.Chain.nil)) <;>
    norm_num [src_pt, dst_pt, posS1, posS5, nicSrcCenter, nicDstCenter,
      frameWidth, nicWidth, nicBuff, Prod.ext_iff]

/-- Consecutive corners of `path_C` are distinct. -/
lemma chain_path_C :
    List.Chain (fun a b => 0 < segLen a b) (ptR src_pt) ([posS2, posS4, posS6, dst_pt].map ptR) := by
  simp only [List.map_cons, List.map_nil]
  refine List.Chain.cons (segLen_pos ?_) (List.Chain.cons (segLen_pos ?_)
    (List.Chain.cons (segLen_pos ?_) (List.Chain.cons (segLen_pos ?_) List.Chain.nil))) <;>
    norm_num [src_pt, dst_pt, posS2, posS4, posS6, nicSrcCenter, nicDstCenter,
      frameWidth, nicWidth, nicBuff, Prod.ext_iff]

/-- Consecutive corners of `path_D` are distinct. -/
lemma chain_path_D :
    List.Chain (fun a b => 0 < segLen a b) (ptR src_pt) ([posS2, posS6, dst_pt].map ptR) := by
  simp only [List.map_cons, List.map_nil]
  refine List.Chain.cons (segLen_pos ?_) (List.Chain.cons (segLen_pos ?_)
    (List.Chain.cons (segLen_pos ?_) List.Chain.nil)) <;>
    norm_num [src_pt, dst_pt, posS2, posS6, nicSrcCenter, nicDstCenter,
      frameWidth, nicWidth, nicBuff, Prod.ext_iff]

/-- Full traversal of `path_A` ends at `dst_pt`. -/
lemma pfp_path_A : pointFromProportion path_A 1 = ptR dst_pt := by
  simpa using pointFromProportion_one src_pt [posS1, posS3, posS5, dst_pt] chain_path_A

/-- Full traversal of `path_B` ends at `dst_pt`. -/
lemma pfp_path_B : pointFromProportion path_B 1 = ptR dst_pt := by
  simpa using pointFromProportion_one src_pt [posS1, posS5, dst_pt] chain_path_B

/-- Full traversal of `path_C` ends at `dst_pt`. -/
lemma pfp_path_C : pointFromProportion path_C 1 = ptR dst_pt := by
  simpa using pointFromProportion_one src_pt [posS2, posS4, posS6, dst_pt] chain_path_C

/-- Full traversal of `path_D` ends at `dst_pt`. -/
lemma pfp_path_D : pointFromProportion path_D 1 = ptR dst_pt := by
  simpa using pointFromProportion_one src_pt [posS2, posS6, dst_pt] chain_path_D

/-- C4: the dispersal block's wall-clock duration is `max(runtimes) + 0.1 =
4.3` seconds, and when it completes every one of the six packets has progress
1, i.e. sits at the final point of its assigned path (`dst_pt`). -/
theorem dispersal_duration_and_arrival :
    blockRunTime = pyMax runtimesList + 1 / 10 ∧ blockRunTime = 43 / 10 ∧
    ∀ i : ℕ, i < 6 → markerAlpha i blockRunTime = 1 ∧
      markerPos i blockRunTime = ptR dst_pt := by
  refine ⟨rfl, by norm_num [blockRunTime, pyMax, runtimesList, max_def], ?_⟩
  intro i hi
  have halpha : markerAlpha i blockRunTime = 1 := by
    interval_cases i <;>
      norm_num [markerAlpha, clip01, blockRunTime, pyMax, runtimesList, dispersalMaxEnd,
        packetStarts, startsFrom, lagRatio, max_def, min_def, List.getD]
  refine ⟨halpha, ?_⟩
  unfold markerPos
  rw [halpha, Rat.cast_one]
  interval_cases i
  · exact pfp_path_A
  · exact pfp_path_D
  · exact pfp_path_B
  · exact pfp_path_C
  · exact pfp_path_A
  · exact pfp_path_D

/-- Witness for the dispersal-block completion at packet 1. -/
theorem dispersal_duration_and_arrival_witness :
    (1 : ℕ) < 6 ∧ markerAlpha 1 blockRunTime = 1 ∧ markerPos 1 blockRunTime = ptR dst_pt :=
  ⟨by norm_num, (dispersal_duration_and_arrival.2.2 1 (by norm_num)).1,
    (dispersal_duration_and_arrival.2.2 1 (by norm_num)).2⟩

/-- C3 counterexample: the six motions do not start at the same logical time.
At 0.3 s into the dispersal block, packet 1 has not started (progress 0) while
packet 0 is already under way, and the `LaggedStart` timeline start times of
packets 0 and 1 differ. -/
theorem dispersal_not_concurrent :
    markerAlpha 1 (3 / 10) = 0 ∧ markerAlpha 0 (3 / 10) ≠ 0 ∧
    packetStarts.getD 1 0 ≠ packetStarts.getD 0 0 := by
  refine ⟨?_, ?_, ?_⟩ <;>
    norm_num [markerAlpha, clip01, blockRunTime, pyMax, runtimesList, dispersalMaxEnd,
      packetStarts, startsFrom, lagRatio, max_def, min_def, List.getD]

/-- C3 (amended): the six dispersal motions start staggered, not concurrently —
`LaggedStart` with `lag_ratio = 0.12` starts motion `i + 1` exactly
`0.12 * runtimes[i]` after motion `i` on the group timeline — while every
packet's trail flash plays in lock-step with that packet's motion: same
polyline, same progress at every time of the block, and both complete together
by the end of the block (the packet's arrival). -/
theorem dispersal_staggered_lockstep :
    (∀ i : ℕ, ∀ t : ℚ, flashAlpha i t = markerAlpha i t) ∧
    (∀ i : ℕ, flashPathOf i = pathOf i) ∧
    (∀ i : ℕ, i < 5 →
      packetStarts.getD (i + 1) 0 = packetStarts.getD i 0 + lagRatio * runtimesList.getD i 0) ∧
    (∀ i : ℕ, i < 6 → flashAlpha i blockRunTime = 1 ∧ markerAlpha i blockRunTime = 1) := by
  refine ⟨fun i t => rfl, fun i => rfl, ?_, ?_⟩
  · intro i hi
    interval_cases i <;> norm_num [packetStarts, startsFrom, lagRatio, runtimesList, List.getD]
  · intro i hi
    have hM : markerAlpha i blockRunTime = 1 := by
      interval_cases i <;>
        norm_num [markerAlpha, clip01, blockRunTime, pyMax, runtimesList, dispersalMaxEnd,
          packetStarts, startsFrom, lagRatio, max_def, min_def, List.getD]
    exact ⟨hM, hM⟩

/-- Witness for the staggered lock-step dispersal at packets 2 and 4. -/
theorem dispersal_staggered_lockstep_witness :
    (2 : ℕ) < 5 ∧
    packetStarts.getD 3 0 = packetStarts.getD 2 0 + lagRatio * runtimesList.getD 2 0 ∧
    (4 : ℕ) < 6 ∧ flashAlpha 4 blockRunTime = 1 ∧
    flashAlpha 0 (1 / 2) = markerAlpha 0 (1 / 2) :=
  ⟨by norm_num, dispersal_staggered_lockstep.2.2.1 2 (by norm_num),
    by norm_num, (dispersal_staggered_lockstep.2.2.2 4 (by norm_num)).1,
    dispersal_staggered_lockstep.1 0 (1 / 2)⟩

/-- Switch center S1 lies on none of the ten drawn link segments. -/
lemma offLinks_s1 : ∀ e ∈ edges, ¬ OnSeg posS1 e.1 e.2 := by
  intro e he
  simp only [edges, List.mem_cons, List.not_mem_nil, or_false] at he
  rcases he with rfl | rfl | rfl | rfl | rfl | rfl | rfl | rfl | rfl | rfl <;>
    norm_num [OnSeg, src_pt, dst_pt, posS1, posS2, posS3, posS4, posS5, posS6,
      switchLeft, switchRight, switchHalf, nicSrcCenter, nicDstCenter, frameWidth,
      nicWidth, nicBuff]

/-- Switch center S2 lies on none of the ten drawn link segments. -/
lemma offLinks_s2 : ∀ e ∈ edges, ¬ OnSeg posS2 e.1 e.2 := by
  intro e he
  simp only [edges, List.mem_cons, List.not_mem_nil, or_false] at he
  rcases he with rfl | rfl | rfl | rfl | rfl | rfl | rfl | rfl | rfl | rfl <;>
    norm_num [OnSeg, src_pt, dst_pt, posS1, posS2, posS3, posS4, posS5, posS6,
      switchLeft, switchRight, switchHalf, nicSrcCenter, nicDstCenter, frameWidth,
      nicWidth, nicBuff]

/-- Switch center S3 lies on none of the ten drawn link segments. -/
lemma offLinks_s3 : ∀ e ∈ edges, ¬ OnSeg posS3 e.1 e.2 := by
  intro e he
  simp only [edges, List.mem_cons, List.not_mem_nil, or_false] at he
  rcases he with rfl | rfl | rfl | rfl | rfl | rfl | rfl | rfl | rfl | rfl <;>
    norm_num [OnSeg, src_pt, dst_pt, posS1, posS2, posS3, posS4, posS5, posS6,
      switchLeft, switchRight, switchHalf, nicSrcCenter, nicDstCenter, frameWidth,
      nicWidth, nicBuff]

/-- Switch center S4 lies on none of the ten drawn link segments. -/
lemma offLinks_s4 : ∀ e ∈ edges, ¬ OnSeg posS4 e.1 e.2 := by
  intro e he
  simp only [edges, List.mem_cons, List.not_mem_nil, or_false] at he
  rcases he with rfl | rfl | rfl | rfl | rfl | rfl | rfl | rfl | rfl | rfl <;>
    norm_num [OnSeg, src_pt, dst_pt, posS1, posS2, posS3, posS4, posS5, posS6,
      switchLeft, switchRight, switchHalf, nicSrcCenter, nicDstCenter, frameWidth,
      nicWidth, nicBuff]

/-- Switch center S5 lies on none of the ten drawn link segments. -/
lemma offLinks_s5 : ∀ e ∈ edges, ¬ OnSeg posS5 e.1 e.2 := by
  intro e he
  simp only [edges, List.mem_cons, List.not_mem_nil, or_false] at he
  rcases he with rfl | rfl | rfl | rfl | rfl | rfl | rfl | rfl | rfl | rfl <;>
    norm_num [OnSeg, src_pt, dst_pt, posS1, posS2, posS3, posS4, posS5, posS6,
      switchLeft, switchRight, switchHalf, nicSrcCenter, nicDstCenter, frameWidth,
      nicWidth, nicBuff]

/-- Switch center S6 lies on none of the ten drawn link segments. -/
lemma offLinks_s6 : ∀ e ∈ edges, ¬ OnSeg posS6 e.1 e.2 := by
  intro e he
  simp only [edges, List.mem_cons, List.not_mem_nil, or_false] at he
  rcases he with rfl | rfl | rfl | rfl | rfl | rfl | rfl | rfl | rfl | rfl <;>
    norm_num [OnSeg, src_pt, dst_pt, posS1, posS2, posS3, posS4, posS5, posS6,
      switchLeft, switchRight, switchHalf, nicSrcCenter, nicDstCenter, frameWidth,
      nicWidth, nicBuff]

/-- C7 counterexample: the first intermediate point of `path_A` is the center
of switch S1, and it lies on none of the ten drawn link segments (links stop
at the switch-square borders, 0.2 away from the center). -/
theorem path_point_off_links :
    path_A.getD 1 (0, 0) = posS1 ∧ List.Forall (fun e => ¬ OnSeg posS1 e.1 e.2) edges := by
  refine ⟨rfl, ?_⟩
  rw [List.forall_iff_forall_mem]
  exact offLinks_s1

/-- C7 (amended): each of the four path polylines starts at the source anchor
`src_pt = nic_src.get_right()` and ends at the destination anchor `dst_pt =
nic_dst.get_left()`, but every intermediate point is a switch center and lies
on none of the ten drawn link segments — the links terminate on the
switch-square borders, not at the centers the paths pass through. -/
theorem paths_endpoints_and_centers :
    ∀ p ∈ fourPaths, p.headD (0, 0) = src_pt ∧ p.getLastD (0, 0) = dst_pt ∧
      ∀ q ∈ (p.drop 1).dropLast, q ∈ switchCenters ∧ ∀ e ∈ edges, ¬ OnSeg q e.1 e.2 := by
  intro p hp
  simp only [fourPaths, List.mem_cons, List.not_mem_nil, or_false] at hp
  rcases hp with rfl | rfl | rfl | rfl <;> refine ⟨rfl, rfl, ?_⟩ <;> intro q hq <;>
    simp only [path_A, path_B, path_C, path_D, List.drop, List.dropLast,
      List.mem_cons, List.not_mem_nil, or_false] at hq
  · rcases hq with rfl | rfl | rfl
    · exact ⟨by simp [switchCenters], offLinks_s1⟩
    · exact ⟨by simp [switchCenters], offLinks_s3⟩
    · exact ⟨by simp [switchCenters], offLinks_s5⟩
  · rcases hq with rfl | rfl
    · exact ⟨by simp [switchCenters], offLinks_s1⟩
    · exact ⟨by simp [switchCenters], offLinks_s5⟩
  · rcases hq with rfl | rfl | rfl
    · exact ⟨by simp [switchCenters], offLinks_s2⟩
    · exact ⟨by simp [switchCenters], offLinks_s4⟩
    · exact ⟨by simp [switchCenters], offLinks_s6⟩
  · rcases hq with rfl | rfl
    · exact ⟨by simp [switchCenters], offLinks_s2⟩
    · exact ⟨by simp [switchCenters], offLinks_s6⟩

/-- Witness for the amended path-endpoint property at `path_A`. -/
theorem paths_endpoints_and_centers_witness :
    path_A.headD (0, 0) = src_pt ∧ path_A.getLastD (0, 0) = dst_pt :=
  ⟨(paths_endpoints_and_centers path_A (by simp [fourPaths])).1,
    (paths_endpoints_and_centers path_A (by simp [fourPaths])).2.1⟩

/-- The logistic sigmoid is monotone. -/
lemma sigmoid_mono : Monotone sigmoid := by
  intro a b hab
  unfold sigmoid
  have h1 : Real.exp (-b) ≤ Real.exp (-a) := Real.exp_le_exp.mpr (neg_le_neg hab)
  have h2 : 0 < 1 + Real.exp (-b) := by positivity
  exact one_div_le_one_div_of_le h2 (by linarith)

/-- Reflection identity of the logistic sigmoid. -/
lemma sigmoid_neg (x : ℝ) : sigmoid (-x) = 1 - sigmoid x := by
  unfold sigmoid
  rw [neg_neg, Real.exp_neg]
  have ha : 0 < Real.exp x := Real.exp_pos x
  have h1 : (1 : ℝ) + Real.exp x ≠ 0 := by positivity
  have h2 : Real.exp x ≠ 0 := ne_of_gt ha
  field_simp
  ring

/-- The `smooth` error term `sigmoid(-5)` is below one half. -/
lemma sigmoid_lt_half : sigmoid (-(10 / 2)) < 1 / 2 := by
  have hrw : sigmoid (-(10 / 2)) = 1 / (1 + Real.exp 5) := by
    unfold sigmoid
    norm_num
  rw [hrw]
  have h : (1 : ℝ) < Real.exp 5 := by
    have := Real.add_one_le_exp (5 : ℝ)
    linarith
  rw [div_lt_div_iff₀ (by positivity) (by norm_num)]
  linarith

/-- The normalizing denominator of `smooth` is positive. -/
lemma smooth_denom_pos : 0 < 1 - 2 * sigmoid (-(10 / 2)) := by
  have := sigmoid_lt_half
  linarith

/-- ManimCE's `smooth` rate function is monotone. -/
lemma smooth_mono : Monotone smooth := by
  have hD := smooth_denom_pos
  have h1 : Monotone (fun t : ℝ => sigmoid (10 * (t - 1 / 2))) := by
    intro a b hab
    exact sigmoid_mono (by linarith)
  have h2 : Monotone (fun t : ℝ =>
      (sigmoid (10 * (t - 1 / 2)) - sigmoid (-(10 / 2))) / (1 - 2 * sigmoid (-(10 / 2)))) := by
    intro a b hab
    exact (div_le_div_iff_of_pos_right hD).mpr (sub_le_sub_right (h1 hab) _)
  intro a b hab
  unfold smooth
  exact ((h2.max monotone_const).min monotone_const) hab

/-- `smooth 0 = 0`. -/
lemma smooth_zero : smooth 0 = 0 := by
  unfold smooth
  have h : (10 : ℝ) * (0 - 1 / 2) = -(10 / 2) := by norm_num
  rw [h, sub_self, zero_div, max_self, min_eq_left (by norm_num : (0 : ℝ) ≤ 1)]

/-- `smooth 1 = 1`. -/
lemma smooth_one : smooth 1 = 1 := by
  unfold smooth
  have h : (10 : ℝ) * (1 - 1 / 2) = 5 := by norm_num
  have h3 : -((10 : ℝ) / 2) = -5 := by norm_num
  have h2 : sigmoid (-(10 / 2)) = 1 - sigmoid 5 := by
    rw [h3]
    exact sigmoid_neg 5
  rw [h, h2]
  have hD : 0 < 1 - 2 * (1 - sigmoid 5) := by
    have hh := sigmoid_lt_half
    rw [h2] at hh
    linarith
  have hnum : sigmoid 5 - (1 - sigmoid 5) = 1 - 2 * (1 - sigmoid 5) := by ring
  rw [hnum, div_self (ne_of_gt hD), max_eq_left (by norm_num : (0 : ℝ) ≤ 1), min_self]

/-- C6: over the meter tween `percent.animate.set_value(95)` with
`rate_func=smooth`, the tracked scalar is a monotone non-decreasing function
of progress, exactly 60 at the start and exactly 95 at the end of the
interval (real-number semantics of the underlying float arithmetic). -/
theorem meter_monotone_endpoints :
    Monotone percentValue ∧ percentValue 0 = 60 ∧ percentValue 1 = 95 := by
  refine ⟨?_, ?_, ?_⟩
  · intro a b hab
    have hs := smooth_mono hab
    unfold percentValue
    norm_num [percentStart, percentEnd]
    linarith
  · unfold percentValue
    rw [smooth_zero]
    norm_num [percentStart, percentEnd]
  · unfold percentValue
    rw [smooth_one]
    norm_num [percentStart, percentEnd]

end RDMA
